import Mathlib

/-!
Verification development for the loop-dune collection pipeline.

The definitions below are shallow embeddings of the code in
src/loop_dune/collector.py, src/loop_dune/sync.py and
src/loop_dune/dune_uploader.py.  Rows of a persisted series are modelled as
height/payload pairs; a pandas DataFrame keyed by its block_number column is
modelled as a list of such rows in file order.
-/

namespace LoopDune

/-- A row of a series: the block height (the block_number column) paired with
the rest of the row (timestamp and sampled columns), which the merge and
resume logic never inspect. -/
abbrev Row (α : Type) := Nat × α

/-- Heights (the block_number column) of a list of rows, in file order. -/
def heights {α : Type} (l : List (Row α)) : List Nat := l.map Prod.fst

/-- Embedding of pandas drop_duplicates on the block_number column with the
default keep policy (keep the first occurrence), written with an accumulator
of heights already seen so that the recursion is structural.  A row survives
precisely when its height has not appeared earlier in the list. -/
def dropDupByHeightFrom {α : Type} (seen : List Nat) : List (Row α) → List (Row α)
  | [] => []
  | r :: rs =>
    if r.1 ∈ seen then dropDupByHeightFrom seen rs
    else r :: dropDupByHeightFrom (r.1 :: seen) rs

/-- Embedding of drop_duplicates(subset block_number) as called in
collector.py on the concatenation of the existing and the incoming frame. -/
def dropDuplicatesByHeight {α : Type} (l : List (Row α)) : List (Row α) :=
  dropDupByHeightFrom [] l

/-- Insertion of a row into a list that is already sorted ascending by
height. -/
def insertRowByHeight {α : Type} (r : Row α) : List (Row α) → List (Row α)
  | [] => [r]
  | x :: xs => if r.1 ≤ x.1 then r :: x :: xs else x :: insertRowByHeight r xs

/-- Embedding of sort_values(block_number): sort the rows ascending by
height.  The call site sorts a frame whose heights are distinct (it runs
right after drop_duplicates), so every comparison sort returns the same
list; insertion sort is used here. -/
def sortByHeight {α : Type} : List (Row α) → List (Row α)
  | [] => []
  | x :: xs => insertRowByHeight x (sortByHeight xs)

/-- Embedding of the merge performed before saving a sampled batch in
collect_contract_data and collect_balance_data (collector.py): concatenate
the existing frame with the incoming one, drop duplicate heights, sort by
height. -/
def mergeSeries {α : Type} (existing incoming : List (Row α)) : List (Row α) :=
  sortByHeight (dropDuplicatesByHeight (existing ++ incoming))

/-- First row carrying the given height, if any: the row a reader of the
saved CSV observes at that height. -/
def rowAt {α : Type} (l : List (Row α)) (h : Nat) : Option (Row α) :=
  l.find? (fun r => r.1 == h)

theorem mem_of_mem_dropDupFrom {α : Type} {x : Row α} :
    ∀ {seen : List Nat} {l : List (Row α)}, x ∈ dropDupByHeightFrom seen l → x ∈ l := by
  intro seen l
  induction l generalizing seen with
  | nil => intro h; exact absurd h (by simp [dropDupByHeightFrom])
  | cons r rs ih =>
    intro h
    simp only [dropDupByHeightFrom] at h
    by_cases hm : r.1 ∈ seen
    · rw [if_pos hm] at h
      exact List.mem_cons_of_mem _ (ih h)
    · rw [if_neg hm] at h
      rcases List.mem_cons.mp h with h | h
      · exact h ▸ List.mem_cons_self _ _
      · exact List.mem_cons_of_mem _ (ih h)

theorem dropDupFrom_heights_nodup {α : Type} :
    ∀ (seen : List Nat) (l : List (Row α)),
      (heights (dropDupByHeightFrom seen l)).Nodup ∧
      ∀ x ∈ heights (dropDupByHeightFrom seen l), x ∉ seen := by
  intro seen l
  induction l generalizing seen with
  | nil => exact ⟨List.nodup_nil, by simp [dropDupByHeightFrom, heights]⟩
  | cons r rs ih =>
    simp only [dropDupByHeightFrom]
    by_cases hm : r.1 ∈ seen
    · rw [if_pos hm]; exact ih seen
    · rw [if_neg hm]
      obtain ⟨hnd, hdisj⟩ := ih (r.1 :: seen)
      refine ⟨?_, ?_⟩
      · simp only [heights, List.map_cons, List.nodup_cons]
        exact ⟨fun hc => (hdisj _ hc) (List.mem_cons_self _ _), hnd⟩
      · intro x hx
        simp only [heights, List.map_cons, List.mem_cons] at hx
        rcases hx with rfl | hx
        · exact hm
        · exact fun hc => (hdisj x hx) (List.mem_cons_of_mem _ hc)

theorem heights_dropDup_nodup {α : Type} (l : List (Row α)) :
    (heights (dropDuplicatesByHeight l)).Nodup :=
  (dropDupFrom_heights_nodup [] l).1

theorem rowAt_cons_of_eq {α : Type} {r : Row α} {rs : List (Row α)} {h : Nat}
    (hr : (r.1 == h) = true) : rowAt (r :: rs) h = some r := by
  simp only [rowAt, List.find?_cons, hr]

theorem rowAt_cons_of_ne {α : Type} {r : Row α} {rs : List (Row α)} {h : Nat}
    (hr : (r.1 == h) = false) : rowAt (r :: rs) h = rowAt rs h := by
  simp only [rowAt, List.find?_cons, hr]

theorem rowAt_dropDupFrom {α : Type} :
    ∀ (seen : List Nat) (l : List (Row α)) (h : Nat), h ∉ seen →
      rowAt (dropDupByHeightFrom seen l) h = rowAt l h := by
  intro seen l
  induction l generalizing seen with
  | nil => intro h _; rfl
  | cons r rs ih =>
    intro h hseen
    simp only [dropDupByHeightFrom]
    by_cases hm : r.1 ∈ seen
    · rw [if_pos hm]
      have hr : (r.1 == h) = false := by
        simp only [beq_eq_false_iff_ne, ne_eq]
        exact fun he => hseen (he ▸ hm)
      rw [ih seen h hseen, rowAt_cons_of_ne hr]
    · rw [if_neg hm]
      cases hr : (r.1 == h) with
      | true => rw [rowAt_cons_of_eq hr, rowAt_cons_of_eq hr]
      | false =>
        have hne : h ∉ r.1 :: seen := by
          intro hc
          rcases List.mem_cons.mp hc with rfl | hc
          · simp at hr
          · exact hseen hc
        rw [rowAt_cons_of_ne hr, rowAt_cons_of_ne hr]
        exact ih (r.1 :: seen) h hne

theorem rowAt_dropDup {α : Type} (l : List (Row α)) (h : Nat) :
    rowAt (dropDuplicatesByHeight l) h = rowAt l h :=
  rowAt_dropDupFrom [] l h (List.not_mem_nil h)

theorem insertRowByHeight_perm {α : Type} (r : Row α) (l : List (Row α)) :
    (insertRowByHeight r l).Perm (r :: l) := by
  induction l with
  | nil => exact List.Perm.refl _
  | cons x xs ih =>
    by_cases hle : r.1 ≤ x.1
    · rw [insertRowByHeight, if_pos hle]
    · rw [insertRowByHeight, if_neg hle]
      exact (ih.cons x).trans (List.Perm.swap r x xs)

theorem sortByHeight_perm {α : Type} (l : List (Row α)) : (sortByHeight l).Perm l := by
  induction l with
  | nil => exact List.Perm.refl _
  | cons x xs ih =>
    rw [sortByHeight]
    exact (insertRowByHeight_perm x (sortByHeight xs)).trans (ih.cons x)

theorem sorted_insertRowByHeight {α : Type} (r : Row α) {l : List (Row α)}
    (hl : (heights l).Pairwise (· ≤ ·)) :
    (heights (insertRowByHeight r l)).Pairwise (· ≤ ·) := by
  induction l with
  | nil => simp [insertRowByHeight, heights]
  | cons x xs ih =>
    simp only [heights, List.map_cons, List.pairwise_cons] at hl
    by_cases hle : r.1 ≤ x.1
    · rw [insertRowByHeight, if_pos hle]
      simp only [heights, List.map_cons, List.pairwise_cons]
      refine ⟨?_, hl.1, hl.2⟩
      intro a ha
      rcases List.mem_cons.mp ha with rfl | ha
      · exact hle
      · exact le_trans hle (hl.1 a ha)
    · rw [insertRowByHeight, if_neg hle]
      simp only [heights, List.map_cons, List.pairwise_cons]
      refine ⟨?_, ih hl.2⟩
      intro a ha
      have hmem : a ∈ r.1 :: heights xs := by
        have hp : (heights (insertRowByHeight r xs)).Perm (r.1 :: heights xs) :=
          (insertRowByHeight_perm r xs).map Prod.fst
        exact hp.mem_iff.mp ha
      rcases List.mem_cons.mp hmem with rfl | hmem
      · exact le_of_not_le hle
      · exact hl.1 a hmem

theorem sortByHeight_sorted {α : Type} (l : List (Row α)) :
    (heights (sortByHeight l)).Pairwise (· ≤ ·) := by
  induction l with
  | nil => simp [sortByHeight, heights]
  | cons x xs ih =>
    rw [sortByHeight]
    exact sorted_insertRowByHeight x ih

theorem insertRowByHeight_eq_cons {α : Type} {r : Row α} {l : List (Row α)}
    (hall : ∀ x ∈ l, r.1 ≤ x.1) : insertRowByHeight r l = r :: l := by
  cases l with
  | nil => rfl
  | cons x xs => rw [insertRowByHeight, if_pos (hall x (List.mem_cons_self x xs))]

theorem sortByHeight_eq_of_sorted {α : Type} :
    ∀ {l : List (Row α)}, (heights l).Pairwise (· ≤ ·) → sortByHeight l = l := by
  intro l
  induction l with
  | nil => intro _; rfl
  | cons x xs ih =>
    intro h
    simp only [heights, List.map_cons, List.pairwise_cons] at h
    rw [sortByHeight, ih h.2]
    exact insertRowByHeight_eq_cons fun y hy =>
      h.1 y.1 (List.mem_map_of_mem Prod.fst hy)

theorem dropDupFrom_eq_nil {α : Type} :
    ∀ (seen : List Nat) (ys : List (Row α)), (∀ y ∈ ys, y.1 ∈ seen) →
      dropDupByHeightFrom seen ys = [] := by
  intro seen ys
  induction ys generalizing seen with
  | nil => intro _; rfl
  | cons r rs ih =>
    intro h
    rw [dropDupByHeightFrom, if_pos (h r (List.mem_cons_self r rs))]
    exact ih seen fun y hy => h y (List.mem_cons_of_mem r hy)

theorem dropDupFrom_append {α : Type} :
    ∀ (seen : List Nat) (xs ys : List (Row α)),
      (heights xs).Nodup → (∀ x ∈ heights xs, x ∉ seen) →
      (∀ y ∈ ys, y.1 ∈ seen ∨ y.1 ∈ heights xs) →
      dropDupByHeightFrom seen (xs ++ ys) = xs := by
  intro seen xs ys
  induction xs generalizing seen with
  | nil =>
    intro _ _ hys
    exact dropDupFrom_eq_nil seen ys fun y hy => by
      rcases hys y hy with h | h
      · exact h
      · exact absurd h (List.not_mem_nil _)
  | cons r rs ih =>
    intro hnd hdisj hys
    simp only [heights, List.map_cons, List.nodup_cons] at hnd
    rw [List.cons_append, dropDupByHeightFrom,
      if_neg (hdisj r.1 (List.mem_cons_self _ _))]
    congr 1
    refine ih (r.1 :: seen) hnd.2 ?_ ?_
    · intro x hx hc
      rcases List.mem_cons.mp hc with hx1 | hx1
      · exact hnd.1 (hx1 ▸ hx)
      · exact hdisj x (List.mem_cons_of_mem _ hx) hx1
    · intro y hy
      rcases hys y hy with h | h
      · exact Or.inl (List.mem_cons_of_mem _ h)
      · rcases List.mem_cons.mp h with h1 | h1
        · exact Or.inl (h1 ▸ List.mem_cons_self _ _)
        · exact Or.inr h1

theorem dropDup_append_self {α : Type} {s : List (Row α)}
    (h : (heights s).Nodup) : dropDuplicatesByHeight (s ++ s) = s :=
  dropDupFrom_append [] s s h (fun _ _ => List.not_mem_nil _)
    (fun _ hy => Or.inr (List.mem_map_of_mem Prod.fst hy))

theorem rowAt_append_left {α : Type} {a : List (Row α)} (b : List (Row α))
    {h : Nat} {r : Row α} (ha : rowAt a h = some r) : rowAt (a ++ b) h = some r := by
  induction a with
  | nil => exact absurd ha (by simp [rowAt])
  | cons x xs ih =>
    cases hx : (x.1 == h) with
    | true =>
      rw [rowAt_cons_of_eq hx] at ha
      rw [List.cons_append, rowAt_cons_of_eq hx]
      exact ha
    | false =>
      rw [rowAt_cons_of_ne hx] at ha
      rw [List.cons_append, rowAt_cons_of_ne hx]
      exact ih ha

theorem rowAt_of_mem_of_nodup {α : Type} :
    ∀ {l : List (Row α)} {r : Row α}, (heights l).Nodup → r ∈ l →
      rowAt l r.1 = some r := by
  intro l
  induction l with
  | nil => intro r _ hm; exact absurd hm (List.not_mem_nil r)
  | cons x xs ih =>
    intro r hnd hm
    simp only [heights, List.map_cons, List.nodup_cons] at hnd
    rcases List.mem_cons.mp hm with rfl | hm
    · exact rowAt_cons_of_eq (beq_self_eq_true r.1)
    · have hx : (x.1 == r.1) = false := by
        simp only [beq_eq_false_iff_ne, ne_eq]
        exact fun he => hnd.1 (he ▸ List.mem_map_of_mem Prod.fst hm)
      rw [rowAt_cons_of_ne hx]
      exact ih hnd.2 hm

/-- Maximum of the block_number column of a frame, as computed by max() on
that column in collect_historical_data; 0 on an empty frame. -/
def maxHeight {α : Type} (l : List (Row α)) : Nat := (heights l).foldr max 0

theorem le_maxHeight {α : Type} {l : List (Row α)} {x : Nat}
    (hx : x ∈ heights l) : x ≤ maxHeight l := by
  unfold maxHeight
  generalize heights l = hs at hx ⊢
  induction hs with
  | nil => exact absurd hx (List.not_mem_nil x)
  | cons y ys ih =>
    rcases List.mem_cons.mp hx with rfl | hm
    · exact Nat.le_max_left x (ys.foldr max 0)
    · exact le_trans (ih hm) (Nat.le_max_right y (ys.foldr max 0))

theorem merged_heights_nodup {α : Type} (a b : List (Row α)) :
    (heights (mergeSeries a b)).Nodup := by
  unfold mergeSeries
  have hperm : (heights (sortByHeight (dropDuplicatesByHeight (a ++ b)))).Perm
      (heights (dropDuplicatesByHeight (a ++ b))) :=
    (sortByHeight_perm (dropDuplicatesByHeight (a ++ b))).map Prod.fst
  exact hperm.nodup_iff.mpr (heights_dropDup_nodup (a ++ b))

theorem merged_heights_pairwise_lt {α : Type} (a b : List (Row α)) :
    (heights (mergeSeries a b)).Pairwise (· < ·) := by
  have hnd : (heights (mergeSeries a b)).Nodup := merged_heights_nodup a b
  have hs : (heights (mergeSeries a b)).Pairwise (· ≤ ·) :=
    sortByHeight_sorted (dropDuplicatesByHeight (a ++ b))
  exact (hs.and hnd).imp fun hab => lt_of_le_of_ne hab.1 hab.2

/-- Claim C8: for every merged-and-persisted Series, the sequence of heights
is strictly increasing: no two rows share the same height and rows are
ordered ascending by height. -/
theorem merged_series_heights_strictly_increasing {α : Type} (a b : List (Row α)) :
    (heights (mergeSeries a b)).Pairwise (· < ·) :=
  merged_heights_pairwise_lt a b

/-- Claim C9: merging a non-empty Series with itself yields a Series equal
to itself.  A Series satisfies the persistence invariant that its heights
are strictly increasing, which is assumed here. -/
theorem mergeSeries_self_idempotent {α : Type} (s : List (Row α))
    (hs : (heights s).Pairwise (· < ·)) (_hne : s ≠ []) :
    mergeSeries s s = s := by
  have hnd : (heights s).Nodup := hs.imp fun hab => ne_of_lt hab
  have hle : (heights s).Pairwise (· ≤ ·) := hs.imp fun hab => le_of_lt hab
  unfold mergeSeries
  rw [dropDup_append_self hnd, sortByHeight_eq_of_sorted hle]

/-- Witness for C9 at a concrete two-row series. -/
theorem mergeSeries_self_idempotent_witness :
    mergeSeries [((3 : Nat), "a"), (7, "b")] [(3, "a"), (7, "b")]
      = [(3, "a"), (7, "b")] :=
  mergeSeries_self_idempotent [((3 : Nat), "a"), (7, "b")] (by decide) (by decide)

/-- Counterexample to claim C1 as stated.  On height 5, present in both the
existing and the incoming series with different payloads, the merged row is
the existing one, not the incoming one: pandas drop_duplicates keeps the
first occurrence and pd.concat puts the existing frame first, so the
incoming row is dropped. -/
theorem mergeSeries_incoming_row_loses :
    rowAt (mergeSeries [((5 : Nat), "old")] [(5, "new")]) 5 = some (5, "old")
      ∧ ((5, "old") : Row String) ≠ (5, "new") :=
  ⟨rfl, by decide⟩

/-- Claim C1 (amended): for every existing and incoming Series and every
height h present in the existing Series, the merge contains exactly one row
at h, and that row equals the EXISTING row at h (first occurrence in concat
order wins, so the existing sample supersedes the incoming one), with the
result sorted ascending by height. -/
theorem mergeSeries_existing_row_wins {α : Type} (a b : List (Row α))
    (h : Nat) (r : Row α) (ha : rowAt a h = some r) :
    (heights (mergeSeries a b)).count h = 1
      ∧ rowAt (mergeSeries a b) h = some r
      ∧ (heights (mergeSeries a b)).Pairwise (· < ·) := by
  have h1 : rowAt (a ++ b) h = some r := rowAt_append_left b ha
  have h2 : rowAt (dropDuplicatesByHeight (a ++ b)) h = some r := by
    rw [rowAt_dropDup]; exact h1
  have h2f : (List.find? (fun x => x.1 == h) (dropDuplicatesByHeight (a ++ b)))
      = some r := h2
  have hre : r.1 = h := by
    have := List.find?_some h2f
    simpa using this
  have hmemd : r ∈ dropDuplicatesByHeight (a ++ b) := List.mem_of_find?_eq_some h2f
  have hperm : (mergeSeries a b).Perm (dropDuplicatesByHeight (a ++ b)) :=
    sortByHeight_perm (dropDuplicatesByHeight (a ++ b))
  have hmem : r ∈ mergeSeries a b := hperm.mem_iff.mpr hmemd
  have hnd : (heights (mergeSeries a b)).Nodup := merged_heights_nodup a b
  have hAt : rowAt (mergeSeries a b) h = some r :=
    hre ▸ rowAt_of_mem_of_nodup hnd hmem
  have hmemh : h ∈ heights (mergeSeries a b) :=
    hre ▸ List.mem_map_of_mem Prod.fst hmem
  exact ⟨List.count_eq_one_of_mem hnd hmemh, hAt, merged_heights_pairwise_lt a b⟩

/-- Witness for the amended C1 at a concrete pair of series sharing height 5
with different payloads. -/
theorem mergeSeries_existing_row_wins_witness :
    (heights (mergeSeries [((5 : Nat), "old"), (9, "z")] [(5, "new")])).count 5 = 1
      ∧ rowAt (mergeSeries [((5 : Nat), "old"), (9, "z")] [(5, "new")]) 5
          = some (5, "old")
      ∧ (heights (mergeSeries [((5 : Nat), "old"), (9, "z")] [(5, "new")])).Pairwise
          (· < ·) :=
  mergeSeries_existing_row_wins [((5 : Nat), "old"), (9, "z")] [(5, "new")] 5
    (5, "old") rfl

/-- Environment observed by one collection run of collect_historical_data:
the creation-height lookup per source name (none when
get_contract_creation_block raises), the persisted CSV per source name
(none when no file exists on disk), and the sampling body
(collect_contract_data for a given name, start block and end block,
returning the newly collected rows). -/
structure HistEnv (α : Type) where
  creation : String → Option Nat
  persisted : String → Option (List (Row α))
  sample : String → Nat → Nat → List (Row α)

/-- Outcome of the per-source planning prologue in collect_historical_data:
the loop either skips the source silently (continue without recording
anything), records the existing frame as the result and skips sampling, or
submits a sampling task starting at the given block. -/
inductive PlanStep (α : Type) where
  | skip : PlanStep α
  | upToDate : List (Row α) → PlanStep α
  | submit : Nat → PlanStep α
deriving DecidableEq

/-- Embedding of the planning prologue for a regular contract in
collect_historical_data (collector.py).  A falsy creation block (lookup
raised, or block 0) skips the source.  With an existing non-empty CSV the
source resumes from the latest persisted block plus 1 when that block is
more than 3500 blocks behind the requested end (a Python int comparison,
modelled over Int), and is otherwise recorded as already up to date; the
final comparison mirrors the start_block >= end_block check, under which
an existing CSV is re-read and recorded while a missing one is skipped
silently. -/
def planContract {α : Type} (env : HistEnv α) (endBlock : Nat) (name : String) :
    PlanStep α :=
  match env.creation name with
  | none => PlanStep.skip
  | some cb =>
    if cb = 0 then PlanStep.skip
    else
      match env.persisted name with
      | none => if cb ≥ endBlock then PlanStep.skip else PlanStep.submit cb
      | some df =>
        if df.isEmpty then
          if cb ≥ endBlock then PlanStep.upToDate df else PlanStep.submit cb
        else
          if (maxHeight df : Int) < (endBlock : Int) - 3500 then
            if maxHeight df + 1 ≥ endBlock then PlanStep.upToDate df
            else PlanStep.submit (maxHeight df + 1)
          else PlanStep.upToDate df

/-- Embedding of the planning prologue for a balance probe in
collect_historical_data (collector.py).  It differs from the
regular-contract prologue in two ways: the freshness test compares the
latest persisted block directly against the end block (no 3500-block
tolerance), and no start against end check is performed before the task is
appended. -/
def planBalance {α : Type} (env : HistEnv α) (endBlock : Nat) (name : String) :
    PlanStep α :=
  match env.creation name with
  | none => PlanStep.skip
  | some cb =>
    if cb = 0 then PlanStep.skip
    else
      match env.persisted name with
      | none => PlanStep.submit cb
      | some df =>
        if df.isEmpty then PlanStep.submit cb
        else
          if maxHeight df < endBlock then PlanStep.submit (maxHeight df + 1)
          else PlanStep.upToDate df

/-- Embedding of the Python expression range(start, stop, step) that
enumerates the sampled heights in collect_contract_data and
collect_balance_data, for a positive step. -/
def pythonRange (start stop step : Nat) : List Nat :=
  if start < stop then
    (List.range ((stop - start + step - 1) / step)).map (fun k => start + k * step)
  else []

theorem pythonRange_mem_le {s stop d h : Nat}
    (hm : h ∈ pythonRange s stop d) : s ≤ h := by
  unfold pythonRange at hm
  by_cases hs : s < stop
  · rw [if_pos hs] at hm
    obtain ⟨k, _, hkh⟩ := List.mem_map.mp hm
    omega
  · rw [if_neg hs] at hm
    exact absurd hm (List.not_mem_nil h)

/-- Claim C3: whenever the planning prologue submits a sampling task for a
source with non-empty persisted data (regular contract or balance probe),
the start height is the maximum persisted height plus 1; for a source with
no persisted data it is the creation height; consequently no height already
present in the persisted Series is ever sampled again. -/
theorem resume_plan_never_resamples {α : Type} (env : HistEnv α)
    (endBlock d : Nat) (name : String) (_hd : 1 ≤ d) :
    (∀ df s, env.persisted name = some df → df ≠ [] →
        (planContract env endBlock name = PlanStep.submit s
          ∨ planBalance env endBlock name = PlanStep.submit s) →
        s = maxHeight df + 1
          ∧ ∀ h ∈ pythonRange s (endBlock + 1) d, h ∉ heights df)
    ∧ (∀ c s, env.creation name = some c → env.persisted name = none →
        (planContract env endBlock name = PlanStep.submit s
          ∨ planBalance env endBlock name = PlanStep.submit s) → s = c) := by
  constructor
  · intro df s hp hne hsub
    have hem : df.isEmpty = false := by
      cases df
      · exact absurd rfl hne
      · rfl
    have hsmax : s = maxHeight df + 1 := by
      rcases hsub with hc | hc
      · unfold planContract at hc
        rcases hcr : env.creation name with _ | cb <;> rw [hcr] at hc
        · cases hc
        · rw [hp] at hc
          dsimp only at hc
          by_cases hcb : cb = 0
          · rw [if_pos hcb] at hc; cases hc
          · rw [if_neg hcb, hem, if_neg Bool.false_ne_true] at hc
            by_cases hfresh : (maxHeight df : Int) < (endBlock : Int) - 3500
            · rw [if_pos hfresh] at hc
              by_cases hge : maxHeight df + 1 ≥ endBlock
              · rw [if_pos hge] at hc; cases hc
              · rw [if_neg hge] at hc; cases hc; rfl
            · rw [if_neg hfresh] at hc; cases hc
      · unfold planBalance at hc
        rcases hcr : env.creation name with _ | cb <;> rw [hcr] at hc
        · cases hc
        · rw [hp] at hc
          dsimp only at hc
          by_cases hcb : cb = 0
          · rw [if_pos hcb] at hc; cases hc
          · rw [if_neg hcb, hem, if_neg Bool.false_ne_true] at hc
            by_cases hlt : maxHeight df < endBlock
            · rw [if_pos hlt] at hc; cases hc; rfl
            · rw [if_neg hlt] at hc; cases hc
    refine ⟨hsmax, ?_⟩
    intro h hm hmem
    have h1 : s ≤ h := pythonRange_mem_le hm
    have h2 : h ≤ maxHeight df := le_maxHeight hmem
    omega
  · intro c s hcr hp hsub
    rcases hsub with hc | hc
    · unfold planContract at hc
      rw [hcr, hp] at hc
      dsimp only at hc
      by_cases hcb : c = 0
      · rw [if_pos hcb] at hc; cases hc
      · rw [if_neg hcb] at hc
        by_cases hge : c ≥ endBlock
        · rw [if_pos hge] at hc; cases hc
        · rw [if_neg hge] at hc; cases hc; rfl
    · unfold planBalance at hc
      rw [hcr, hp] at hc
      dsimp only at hc
      by_cases hcb : c = 0
      · rw [if_pos hcb] at hc; cases hc
      · rw [if_neg hcb] at hc; cases hc; rfl

/-- Environment for the C3 witness: every source has creation height 3 and
a persisted series at heights 7 and 40, with the chain head far ahead. -/
def envResume : HistEnv String :=
  { creation := fun _ => some 3
  , persisted := fun _ => some [(7, "a"), (40, "b")]
  , sample := fun _ _ _ => [] }

/-- Witness for C3: the resume prologue submits start height 41 for a
series whose maximum persisted height is 40, and 41 is not among the
persisted heights. -/
theorem resume_plan_never_resamples_witness :
    (41 : Nat) = maxHeight [((7 : Nat), "a"), (40, "b")] + 1
      ∧ (41 : Nat) ∉ heights [((7 : Nat), "a"), (40, "b")] :=
  ⟨((resume_plan_never_resamples envResume 5000 50 "Y" (by decide)).1
      [(7, "a"), (40, "b")] 41 rfl (by decide) (Or.inl rfl)).1,
   ((resume_plan_never_resamples envResume 5000 50 "Y" (by decide)).1
      [(7, "a"), (40, "b")] 41 rfl (by decide) (Or.inl rfl)).2 41 (by decide)⟩

/-- Environment for the C7 counterexample: a source with creation height 5,
no persisted data. -/
def envStartEqEnd : HistEnv String :=
  { creation := fun _ => some 5
  , persisted := fun _ => none
  , sample := fun _ _ _ => [] }

/-- Counterexample to claim C7 as stated: with no persisted data, creation
height 5 and end block 5 (start equal to end), the planner skips the source
instead of sampling one height, because the code tests
start_block >= end_block rather than a strict inequality. -/
theorem planContract_skips_when_start_eq_end :
    planContract envStartEqEnd 5 "X" = PlanStep.skip := rfl

/-- Claim C7 (amended): for a source with no persisted data and a truthy
creation height c, the planner performs no sampling exactly when c >= end
(the code tests start_block >= end_block), and submits a task starting at c
exactly when c < end; in particular a window with start equal to end is not
sampled. -/
theorem planContract_skip_iff_start_ge_end {α : Type} (env : HistEnv α)
    (endBlock : Nat) (name : String) (c : Nat)
    (hc : env.creation name = some c) (hc0 : c ≠ 0)
    (hp : env.persisted name = none) :
    (planContract env endBlock name = PlanStep.skip ↔ endBlock ≤ c)
      ∧ (planContract env endBlock name = PlanStep.submit c ↔ c < endBlock) := by
  unfold planContract
  rw [hc, hp]
  dsimp only
  rw [if_neg hc0]
  by_cases hce : c ≥ endBlock
  · rw [if_pos hce]
    refine ⟨⟨fun _ => hce, fun _ => rfl⟩, ⟨fun h => ?_, fun h => by omega⟩⟩
    cases h
  · rw [if_neg hce]
    refine ⟨⟨fun h => ?_, fun h => by omega⟩, ⟨fun _ => by omega, fun _ => rfl⟩⟩
    cases h

/-- Witness for the amended C7 at creation height 5 and end block 5. -/
theorem planContract_skip_iff_start_ge_end_witness :
    (planContract envStartEqEnd 5 "X" = PlanStep.skip ↔ 5 ≤ 5)
      ∧ (planContract envStartEqEnd 5 "X" = PlanStep.submit 5 ↔ 5 < 5) :=
  planContract_skip_iff_start_ge_end envStartEqEnd 5 "X" 5 rfl (by decide) rfl

/-- Claim C4: for a window with start s, end e >= s and stride d >= 1, the
heights visited by the sampler - the Python range from s to e plus 1 with
step d - are exactly the values s + k * d that do not exceed e; in
particular with start 100, end 210 and stride 50 the sampled heights are
exactly 100, 150 and 200. -/
theorem sampling_window_heights (s e d : Nat) (hd : 1 ≤ d) (hse : s ≤ e) :
    (∀ h, h ∈ pythonRange s (e + 1) d ↔ (∃ k, h = s + k * d) ∧ h ≤ e)
      ∧ pythonRange 100 211 50 = [100, 150, 200] := by
  have hN : (e + 1 - s + d - 1) / d = (e - s) / d + 1 := by
    have h3 : e + 1 - s + d - 1 = e - s + d := by omega
    rw [h3, Nat.add_div_right _ (by omega)]
  constructor
  · intro h
    unfold pythonRange
    rw [if_pos (by omega)]
    constructor
    · intro hm
      obtain ⟨k, hk, hkh⟩ := List.mem_map.mp hm
      rw [List.mem_range, hN] at hk
      have hkd : k ≤ (e - s) / d := by omega
      have hmul : k * d ≤ e - s := (Nat.le_div_iff_mul_le (by omega)).mp hkd
      exact ⟨⟨k, hkh.symm⟩, by omega⟩
    · rintro ⟨⟨k, rfl⟩, hle⟩
      refine List.mem_map.mpr ⟨k, ?_, rfl⟩
      rw [List.mem_range, hN]
      have hmul : k * d ≤ e - s := by omega
      have hk2 : k ≤ (e - s) / d := (Nat.le_div_iff_mul_le (by omega)).mpr hmul
      omega
  · rfl

/-- Witness for C4: the window characterization at start 100, end 210 and
stride 50, instantiated at height 150, together with the concrete list of
sampled heights. -/
theorem sampling_window_heights_witness :
    (150 ∈ pythonRange 100 (210 + 1) 50
        ↔ (∃ k, (150 : Nat) = 100 + k * 50) ∧ (150 : Nat) ≤ 210)
      ∧ pythonRange 100 211 50 = [100, 150, 200] :=
  ⟨(sampling_window_heights 100 210 50 (by decide) (by decide)).1 150,
   (sampling_window_heights 100 210 50 (by decide) (by decide)).2⟩

/-- Dictionary-style assignment into the results mapping: overwrite the
entry when the key is already present, append otherwise. -/
def recordResult {α : Type} (results : List (String × α)) (name : String)
    (v : α) : List (String × α) :=
  if results.any (fun p => p.1 == name) then
    results.map (fun p => if p.1 == name then (name, v) else p)
  else results ++ [(name, v)]

/-- Names and start blocks of the sampling tasks actually submitted to the
thread pool by the regular-contract planning loop, in submission order (the
futures list). -/
def submittedTasks {α : Type} (env : HistEnv α) (endBlock : Nat)
    (contracts : List String) : List (String × Nat) :=
  contracts.filterMap fun n =>
    match planContract env endBlock n with
    | PlanStep.submit s => some (n, s)
    | _ => none

/-- Embedding of the regular-contract portion of collect_historical_data:
the planning loop records up-to-date sources and submits one future per
remaining source; the collection loop then iterates over
zip(contracts, futures) - the FULL contract list zipped against the
possibly shorter futures list - and records each non-empty resulting frame
under the zipped contract name. -/
def collectHistoricalRegular {α : Type} (env : HistEnv α) (endBlock : Nat)
    (contracts : List String) : List (String × List (Row α)) :=
  let afterPlanning := contracts.foldl
    (fun acc n =>
      match planContract env endBlock n with
      | PlanStep.upToDate df => recordResult acc n df
      | _ => acc) []
  let futures := (submittedTasks env endBlock contracts).map
    (fun t => env.sample t.1 t.2 endBlock)
  (contracts.zip futures).foldl
    (fun acc p => if p.2.isEmpty then acc else recordResult acc p.1 p.2)
    afterPlanning

/-- Environment for the C2 scenario: three sources A, B and C where the
creation-height lookup for B raises; nothing is persisted; sampling a
source returns one row tagged with the name of the source it was actually
sampled for. -/
def envThreeSources : HistEnv String :=
  { creation := fun n => if n = "B" then none else some 10
  , persisted := fun _ => none
  , sample := fun n s _ => [(s, n)] }

/-- Claim C2, evaluated at its failing input.  With sources A, B and C
where the creation-height lookup of B raises, only A and C are submitted,
and zip(contracts, futures) pairs the full contract list against the
shorter futures list: the run records the Series sampled for C (payload
tag C) under the name B, and no entry at all under the name C, so results
are not attributed to the source they were sampled for. -/
theorem collect_all_misattributes_on_failure :
    collectHistoricalRegular envThreeSources 100 ["A", "B", "C"]
        = [("A", [(10, "A")]), ("B", [(10, "C")])]
      ∧ (collectHistoricalRegular envThreeSources 100 ["A", "B", "C"]).lookup "C"
        = none := by
  exact ⟨rfl, rfl⟩

/-- Embedding of the per-height loop of collect_contract_data
(collector.py).  getBlock models w3.eth.get_block (none when it raises);
rowData models the inner functions_to_track loop, which catches every
per-function error itself and therefore always yields a row body.  The
get_block call sits OUTSIDE any try block, so a failure there propagates:
the whole pass aborts and every row collected so far is discarded, which
the none result models. -/
def collectContractRows {α : Type} (getBlock : Nat → Option Nat)
    (rowData : Nat → α) : List Nat → Option (List (Nat × Nat × α))
  | [] => some []
  | h :: rest =>
    match getBlock h with
    | none => none
    | some ts =>
      match collectContractRows getBlock rowData rest with
      | none => none
      | some rows => some ((h, ts, rowData h) :: rows)

/-- Embedding of the per-height loop of collect_balance_data
(collector.py).  Here both the get_block call and the balanceOf call sit
inside a try block whose except clause continues with the next height, so
a failed height contributes no row and sampling proceeds. -/
def collectBalanceRows (getBlock : Nat → Option Nat)
    (getBalance : Nat → Option Nat) : List Nat → List (Nat × Nat × Nat)
  | [] => []
  | h :: rest =>
    match getBlock h with
    | none => collectBalanceRows getBlock getBalance rest
    | some ts =>
      match getBalance h with
      | none => collectBalanceRows getBlock getBalance rest
      | some bal => (h, ts, bal) :: collectBalanceRows getBlock getBalance rest

/-- Block-timestamp oracle that raises at height 150 and returns a
timestamp at every other height. -/
def getBlockFailAt150 (h : Nat) : Option Nat :=
  if h = 150 then none else some (1600000000 + h)

/-- Claim C5, evaluated at its failing input.  Over the window 100, 150,
200 with get_block raising at height 150, the contract-data sampler does
not skip height 150 and continue: the exception propagates and the whole
pass aborts with no rows at all (the claim holds only for the balance
sampler, which catches the failure per height and keeps rows 100 and
200). -/
theorem getBlock_failure_aborts_contract_pass :
    collectContractRows getBlockFailAt150 (fun h => h) [100, 150, 200] = none
      ∧ collectBalanceRows getBlockFailAt150 (fun h => some (2 * h))
          [100, 150, 200]
        = [(100, 1600000100, 200), (200, 1600000200, 400)] :=
  ⟨rfl, rfl⟩

/-- Response of the Dune insert endpoint as observed by insert_data
(sync.py): the HTTP status code and the rows_written field of the JSON body
(none when the key is absent, in which case the lookup raises and the
except clause returns False). -/
structure InsertResponse where
  status : Nat
  rows_written : Option Nat
deriving DecidableEq

/-- Embedding of DuneSync.insert_data (sync.py): False on an empty frame;
on HTTP status 200 the reported rows_written count is printed and True is
returned WITHOUT comparing it against the number of rows submitted; any
other status, or a missing rows_written key, yields False.  The function
never touches the locally persisted Series. -/
def insert_data {α : Type} (df : List α) (resp : InsertResponse) : Bool :=
  if df.isEmpty then false
  else if resp.status = 200 then resp.rows_written.isSome
  else false

/-- Counterexample to claim C6 as stated: a 200 response reporting 1 row
written for 2 submitted rows still makes insert_data return true, not
false; the short count is silently ignored. -/
theorem insert_data_short_count_reports_success :
    insert_data [((1000 : Nat), "r1"), (1001, "r2")]
        { status := 200, rows_written := some 1 } = true
      ∧ 1 < [((1000 : Nat), "r1"), (1001, "r2")].length :=
  ⟨rfl, by decide⟩

/-- Claim C6 (amended): insert_data succeeds exactly when the frame is
non-empty, the response status is 200 and the body carries a rows_written
field - the reported count is never compared against the number of rows
submitted, so a short count is still reported as success; the locally
persisted Series is unchanged by the publish outcome either way. -/
theorem insert_data_ignores_rows_written {α : Type} (df : List α)
    (resp : InsertResponse) :
    insert_data df resp = true
      ↔ df ≠ [] ∧ resp.status = 200 ∧ resp.rows_written.isSome = true := by
  unfold insert_data
  by_cases h1 : df.isEmpty
  · have : df = [] := by
      cases df
      · rfl
      · cases h1
    simp [h1, this]
  · have hne : df ≠ [] := by
      intro hd
      rw [hd] at h1
      exact h1 rfl
    by_cases h2 : resp.status = 200
    · simp [h1, h2, hne]
    · simp [h1, h2, hne]

/-- Embedding of Python str.isalpha as used on the first character of a
column name in DuneUploader.validate_column_names (dune_uploader.py).
The Python isalpha test is a Unicode predicate, not an ASCII one; this model is
exact for every code point below U+0100 (ASCII letters plus the Latin-1
letters, which are U+00AA, U+00B5, U+00BA and U+00C0 through U+00FF except
the multiplication and division signs) and conservatively false above. -/
def pyIsAlpha (c : Char) : Bool :=
  c.isAlpha || c.toNat == 0xAA || c.toNat == 0xB5 || c.toNat == 0xBA ||
    (0xC0 ≤ c.toNat && c.toNat ≤ 0xFF && c.toNat != 0xD7 && c.toNat != 0xF7)

/-- One column-name check of validate_column_names: the first character
must be alphabetic (Python isalpha) or an underscore.  On an empty name,
the subscript col at index 0 raises IndexError, which the try block in
upload_csv turns into a False result with no request sent; that path is
folded in here as a failed check, giving the same upload outcome. -/
def columnNameOk (col : String) : Bool :=
  match col.data with
  | [] => false
  | c :: _ => pyIsAlpha c || c == '_'

/-- Embedding of DuneUploader.validate_column_names: every column name must
pass the first-character check. -/
def validate_column_names (cols : List String) : Bool :=
  cols.all columnNameOk

/-- Maximum upload size accepted by DuneUploader: 200 MB. -/
def MAX_FILE_SIZE : Nat := 200 * 1024 * 1024

/-- Embedding of DuneUploader.upload_csv: the checks run in the order of
the code (file existence, then the strict size check, then column-name
validation), and only if all pass is the HTTP request issued, whose outcome
apiOk models.  The first component of the result is the returned boolean,
the second records whether a request was sent to the warehouse API. -/
def upload_csv (fileExists : Bool) (fileSize : Nat) (cols : List String)
    (apiOk : Bool) : Bool × Bool :=
  if !fileExists then (false, false)
  else if MAX_FILE_SIZE < fileSize then (false, false)
  else if !validate_column_names cols then (false, false)
  else (apiOk, true)

/-- ASCII-letter test, spelling out what claim C10 literally asserts about
first characters of column names. -/
def isAsciiLetter (c : Char) : Bool :=
  (65 ≤ c.toNat && c.toNat ≤ 90) || (97 ≤ c.toNat && c.toNat ≤ 122)

/-- Counterexample to claim C10 as stated: the first character of the
column name is U+00E9, which is neither an ASCII letter nor an underscore,
yet the upload succeeds and the request IS sent, because Python str.isalpha
accepts non-ASCII Unicode letters. -/
theorem upload_csv_sends_for_non_ascii_letter :
    isAsciiLetter 'é' = false ∧ ('é' == '_') = false
      ∧ upload_csv true 1024 ["état"] true = (true, true) := by
  refine ⟨rfl, rfl, ?_⟩
  rfl

/-- Claim C10 (amended): a CSV upload whose file exceeds 200 MB, or one of
whose column names has a first character that is neither alphabetic per
Python str.isalpha (which also accepts non-ASCII letters) nor an
underscore, returns false without any request being sent to the warehouse
API. -/
theorem upload_csv_rejects_without_request (fileExists : Bool)
    (fileSize : Nat) (cols : List String) (apiOk : Bool)
    (hbad : MAX_FILE_SIZE < fileSize
      ∨ ∃ col ∈ cols, columnNameOk col = false) :
    upload_csv fileExists fileSize cols apiOk = (false, false) := by
  unfold upload_csv
  cases fileExists
  · rfl
  · rcases hbad with hsize | ⟨col, hcol, hbadcol⟩
    · rw [if_neg (by simp), if_pos hsize]
    · have hval : validate_column_names cols = false := by
        cases hv : validate_column_names cols
        · rfl
        · have := List.all_eq_true.mp hv col hcol
          rw [hbadcol] at this
          cases this
      by_cases hsize : MAX_FILE_SIZE < fileSize
      · rw [if_neg (by simp), if_pos hsize]
      · rw [if_neg (by simp), if_neg hsize, if_pos (by rw [hval]; rfl)]

/-- Witness for the amended C10: a column name starting with a digit makes
the upload fail with no request sent. -/
theorem upload_csv_rejects_without_request_witness :
    upload_csv true 1024 ["9col", "block_number"] true = (false, false) :=
  upload_csv_rejects_without_request true 1024 ["9col", "block_number"] true
    (Or.inr ⟨"9col", by decide, by decide⟩)

end LoopDune
